import Mathlib

/-!
Verification of the advanced-vector container (src/advanced-vector/vector.h).

The model works at the granularity of storage slots: a buffer owned by a
RawMemory block is a list of slots, where a slot holding `some a` contains a
live constructed object with value `a`, and a slot holding `none` is
allocated but uninitialized memory.  Element operations (placement new,
assignment, destructor calls) are checked: applying them to a slot in the
wrong state yields the distinguished undefined-behavior outcome.  Exceptions
thrown by element constructors, copy/move operations and value construction
are driven by an explicit oracle `failAt : Option Nat` numbering the fallible
element operations of a call in execution order.  The moved-from value an
object keeps after being moved out of is given by an explicit parameter
`mf : α → α`, and the two compile-time type traits that vector.h branches on
(`std::is_nothrow_move_constructible_v<T>`,
`std::is_copy_constructible_v<T>`) are booleans `nm` and `cc`.
-/

namespace AV

variable {α : Type}

/-- One slot of a RawMemory block: `some a` is a live constructed object with
value `a`, `none` is allocated but uninitialized storage.  RawMemory itself
never constructs or destroys elements (vector.h lines 9-88). -/
abbrev Buf (α : Type) := List (Option α)

/-- A buffer whose leading slots hold the live values `xs`, followed by `k`
uninitialized slots.  Well-formed vectors always have buffers of this
shape. -/
def mkBuf (xs : List α) (k : Nat) : Buf α :=
  xs.map some ++ List.replicate k none

/-- Reading the object stored at slot `i`; `none` means the read hit
uninitialized or out-of-range memory. -/
def readSlot (b : Buf α) (i : Nat) : Option α :=
  match b.get? i with
  | some (some a) => some a
  | _ => none

/-- Placement new of value `a` into slot `i`; `none` signals undefined
behavior (constructing over a live object, or outside the allocation). -/
def constructAt (b : Buf α) (i : Nat) (a : α) : Option (Buf α) :=
  match b.get? i with
  | some none => some (b.set i (some a))
  | _ => none

/-- Assignment to the object at slot `i`; requires a live object there. -/
def assignAt (b : Buf α) (i : Nat) (a : α) : Option (Buf α) :=
  match b.get? i with
  | some (some _) => some (b.set i (some a))
  | _ => none

/-- Destructor call on slot `i`; `none` signals undefined behavior
(destroying a slot that holds no live object). -/
def destroyAt (b : Buf α) (i : Nat) : Option (Buf α) :=
  match b.get? i with
  | some (some _) => some (b.set i none)
  | _ => none

/-- `std::destroy_n` over `count` slots starting at `start`. -/
def destroyRange (b : Buf α) (start : Nat) : Nat → Option (Buf α)
  | 0 => some b
  | c + 1 =>
    match destroyAt b start with
    | some b1 => destroyRange b1 (start + 1) c
    | none => none

/-- The live objects still present in a buffer, in slot order. -/
def liveList (b : Buf α) : List α := b.filterMap id

/-- An argument given to Emplace or Insert: either an independent value, or a
reference to the element currently stored at slot `i` of the same vector
(the self-reference case of vector.h lines 367-385). -/
inductive Arg (α : Type) where
  | val : α → Arg α
  | ref : Nat → Arg α

/-- Evaluating an argument at the moment an element constructor runs: a
reference reads whatever the buffer holds at that moment. -/
def evalArg (b : Buf α) : Arg α → Option α
  | .val a => some a
  | .ref i => readSlot b i

/-- The compile-time relocation choice of vector.h (lines 170, 227, 336):
move when `std::is_nothrow_move_constructible_v<T>` holds or
`std::is_copy_constructible_v<T>` fails, otherwise copy. -/
def selectMove (nm cc : Bool) : Bool := nm || !cc

/-- Result of a relocation loop into a fresh buffer: finished, or an element
constructor threw having completed the constructions before destination
index `i`, or undefined behavior. -/
inductive RelocRes (α : Type) where
  | done : Buf α → Buf α → RelocRes α
  | thrown : Buf α → Buf α → Nat → RelocRes α
  | ub : RelocRes α
deriving DecidableEq

/-- The relocation loops of Reserve, EmplaceBack and Emplace: `count`
elements are taken from `old` at `src, src+1, ...` and constructed into `nd`
at `dst, dst+1, ...`, by move or by copy according to `selectMove`.  A
successful move leaves the source object holding its moved-from value
`mf v`; a copy leaves the source unchanged.  The construction into slot `k`
throws when `failAt = some k`, which is possible only when move construction
may throw, i.e. when `nm` is false (in the copy branch `nm` is false as
well, so a single condition covers both branches). -/
def relocLoopN (nm cc : Bool) (mf : α → α) (failAt : Option Nat) :
    Buf α → Buf α → Nat → Nat → Nat → RelocRes α
  | old, nd, _, _, 0 => .done old nd
  | old, nd, src, dst, c + 1 =>
    if nm = false ∧ failAt = some dst then .thrown old nd dst
    else
      match readSlot old src with
      | none => .ub
      | some v =>
        match constructAt nd dst v with
        | none => .ub
        | some nd1 =>
          relocLoopN nm cc mf failAt
            (if selectMove nm cc then old.set src (some (mf v)) else old)
            nd1 (src + 1) (dst + 1) c

/-- `std::move_backward` of `count` elements ending at slot `last - 1` into
the range ending at slot `dlast - 1`, processed from the top; every step is
a move assignment that leaves the source slot holding its moved-from
value. -/
def moveBackwardN (mf : α → α) : Buf α → Nat → Nat → Nat → Option (Buf α)
  | b, _, _, 0 => some b
  | b, last, dlast, c + 1 =>
    match readSlot b (last - 1) with
    | none => none
    | some v =>
      match assignAt b (dlast - 1) v with
      | none => none
      | some b1 =>
        moveBackwardN mf (b1.set (last - 1) (some (mf v))) (last - 1) (dlast - 1) c

/-- `std::move` of `count` elements from `first` onward into `dfirst` onward,
processed from the bottom; every step is a move assignment that leaves the
source slot holding its moved-from value. -/
def moveForwardN (mf : α → α) : Buf α → Nat → Nat → Nat → Option (Buf α)
  | b, _, _, 0 => some b
  | b, first, dfirst, c + 1 =>
    match readSlot b first with
    | none => none
    | some v =>
      match assignAt b dfirst v with
      | none => none
      | some b1 =>
        moveForwardN mf (b1.set first (some (mf v))) (first + 1) (dfirst + 1) c

/-- Result of a standard uninitialized construction algorithm: finished, or
an element constructor threw and the algorithm destroyed its own partial
work (the behavior the standard mandates), or undefined behavior. -/
inductive CtorRes (α : Type) where
  | done : Buf α → CtorRes α
  | thrown : Buf α → CtorRes α
  | ub : CtorRes α
deriving DecidableEq

/-- `std::uninitialized_value_construct_n` into slots `start + j` for
`j < count`; `d` is the value produced by value construction; the `j`-th
construction throws when `failAt = some j`, and the algorithm then destroys
the `j` objects it had built before rethrowing. -/
def vcLoop (d : α) (failAt : Option Nat) (start : Nat) : Buf α → Nat → Nat → CtorRes α
  | b, _, 0 => .done b
  | b, j, c + 1 =>
    if failAt = some j then
      match destroyRange b start j with
      | some b1 => .thrown b1
      | none => .ub
    else
      match constructAt b (start + j) d with
      | none => .ub
      | some b1 => vcLoop d failAt start b1 (j + 1) c

/-- `std::uninitialized_copy_n` of the values `src` into slots `dst0 + j`;
the `j`-th copy throws when `failAt = some j`, and the algorithm destroys
its partial work before rethrowing. -/
def ucLoop (failAt : Option Nat) (dst0 : Nat) : Buf α → List α → Nat → CtorRes α
  | b, [], _ => .done b
  | b, x :: rest, j =>
    if failAt = some j then
      match destroyRange b dst0 j with
      | some b1 => .thrown b1
      | none => .ub
    else
      match constructAt b (dst0 + j) x with
      | none => .ub
      | some b1 => ucLoop failAt dst0 b1 rest (j + 1)

/-- The Vector of vector.h (lines 90-400): an owned RawMemory block plus the
count of leading slots that hold live elements. -/
structure Vector (α : Type) where
  data_ : Buf α
  size_ : Nat
deriving DecidableEq

/-- Vector capacity: the length of the owned block (vector.h line 268). -/
def Vector.Capacity (v : Vector α) : Nat := v.data_.length

/-- The sequence of live element values, slots 0 to size-1. -/
def Vector.live (v : Vector α) : List α := (v.data_.take v.size_).filterMap id

/-- Outcome of a vector operation: normal return; an exception propagated
with the vector left in the given state and `leaked` listing any objects
that were still alive inside a buffer that got deallocated; or undefined
behavior (a destructor or constructor ran on a slot in the wrong state). -/
inductive Res (α : Type) where
  | ok : Vector α → Res α
  | exn : Vector α → List α → Res α
  | ub : Res α
deriving DecidableEq

/-- Vector::Reserve (vector.h lines 165-190): with `newCap` above the current
capacity, allocate a fresh block, relocate all live elements into it (moving
or copying per `selectMove`), on success destroy the originals and swap the
new block in; if a relocation throws, the catch destroys the `i` elements
already constructed in the new block and rethrows, and the new block is
deallocated, leaking whatever objects are still alive in it. -/
def Reserve (v : Vector α) (newCap : Nat) (nm cc : Bool) (mf : α → α)
    (failAt : Option Nat) : Res α :=
  if v.Capacity < newCap then
    match relocLoopN nm cc mf failAt v.data_ (List.replicate newCap none) 0 0 v.size_ with
    | .done old1 nd1 =>
      match destroyRange old1 0 v.size_ with
      | some _ => .ok ⟨nd1, v.size_⟩
      | none => .ub
    | .thrown old1 nd1 i =>
      match destroyRange nd1 0 i with
      | some nd2 => .exn ⟨old1, v.size_⟩ (liveList nd2)
      | none => .ub
    | .ub => .ub
  else .ok v

/-- Vector::Resize (vector.h lines 192-211).  `failRes` drives element
operation failures inside the Reserve call, `failAt` the value
constructions of the growth phase. -/
def Resize (v : Vector α) (newSize : Nat) (d : α) (nm cc : Bool) (mf : α → α)
    (failRes failAt : Option Nat) : Res α :=
  if newSize < v.size_ then
    match destroyRange v.data_ newSize (v.size_ - newSize) with
    | some b1 => .ok ⟨b1, newSize⟩
    | none => .ub
  else if v.size_ < newSize then
    match (if v.Capacity < newSize then Reserve v newSize nm cc mf failRes else .ok v) with
    | .ok v1 =>
      match vcLoop d failAt v1.size_ v1.data_ 0 (newSize - v1.size_) with
      | .done b1 => .ok ⟨b1, newSize⟩
      | .thrown b1 =>
        match destroyRange b1 v1.size_ (newSize - v1.size_) with
        | some b2 => .exn ⟨b2, v1.size_⟩ []
        | none => .ub
      | .ub => .ub
    | r => r
  else .ok v

/-- Renumbers the failure oracle of EmplaceBack for its relocation loop,
whose constructions are the fallible steps numbered from 1 (step 0 is the
construction of the new element). -/
def shiftOracle : Option Nat → Option Nat
  | some (k + 1) => some k
  | _ => none

/-- Vector::EmplaceBack (vector.h lines 213-249).  Fallible constructions
are numbered in execution order: step 0 builds the new element from the
arguments (at slot `size_` of the new block in the growth path), step
`1 + i` relocates element `i`.  The catch of the growth path destroys slots
`0` to `new_size - 1` of the new block, where `new_size` counts the
constructions that have completed. -/
def EmplaceBack (v : Vector α) (x : α) (nm cc : Bool) (mf : α → α)
    (failAt : Option Nat) : Res α :=
  if v.size_ < v.Capacity then
    if failAt = some 0 then .exn v []
    else
      match constructAt v.data_ v.size_ x with
      | some b1 => .ok ⟨b1, v.size_ + 1⟩
      | none => .ub
  else
    if failAt = some 0 then .exn v []
    else
      match constructAt (List.replicate (if v.Capacity = 0 then 1 else 2 * v.Capacity) none)
          v.size_ x with
      | none => .ub
      | some nd1 =>
        match relocLoopN nm cc mf (shiftOracle failAt) v.data_ nd1 0 0 v.size_ with
        | .done old1 nd2 =>
          match destroyRange old1 0 v.size_ with
          | some _ => .ok ⟨nd2, v.size_ + 1⟩
          | none => .ub
        | .thrown old1 nd2 i =>
          match destroyRange nd2 0 (i + 1) with
          | some nd3 => .exn ⟨old1, v.size_⟩ (liveList nd3)
          | none => .ub
        | .ub => .ub

/-- Vector::PushBack (vector.h lines 251-257): forwards to EmplaceBack. -/
def PushBack (v : Vector α) (x : α) (nm cc : Bool) (mf : α → α)
    (failAt : Option Nat) : Res α :=
  EmplaceBack v x nm cc mf failAt

/-- A sequence of successive PushBack calls none of whose element operations
throw; an earlier non-ok outcome is propagated. -/
def pushMany (nm cc : Bool) (mf : α → α) : Vector α → List α → Res α
  | v, [] => .ok v
  | v, x :: rest =>
    match PushBack v x nm cc mf none with
    | .ok v1 => pushMany nm cc mf v1 rest
    | r => r

/-- Vector::Emplace (vector.h lines 304-365).  With spare capacity and an
interior position: step 0 is the move construction duplicating the last
element into slot `size_`, then the tail is shifted up by move assignments,
and step 1 is the construction of the replacement value assigned into the
freed slot; if step 1 throws, the catch shifts the tail back down, destroys
the duplicated top slot and restores the size.  In the growth path the
fallible constructions are numbered by their destination slot in the new
block, matching the `new_size` counter of the source. -/
def Emplace (v : Vector α) (index : Nat) (arg : Arg α) (nm cc : Bool)
    (mf : α → α) (failAt : Option Nat) : Res α :=
  if v.size_ < v.Capacity then
    if index = v.size_ then
      if failAt = some 0 then .exn v []
      else
        match evalArg v.data_ arg with
        | none => .ub
        | some a =>
          match constructAt v.data_ v.size_ a with
          | some b1 => .ok ⟨b1, v.size_ + 1⟩
          | none => .ub
    else
      if nm = false ∧ failAt = some 0 then .exn v []
      else
        match readSlot v.data_ (v.size_ - 1) with
        | none => .ub
        | some w =>
          match constructAt v.data_ v.size_ w with
          | none => .ub
          | some b1 =>
            match moveBackwardN mf (b1.set (v.size_ - 1) (some (mf w)))
                (v.size_ - 1) v.size_ (v.size_ - 1 - index) with
            | none => .ub
            | some b3 =>
              if failAt = some 1 then
                match moveForwardN mf b3 (index + 1) index (v.size_ - index) with
                | none => .ub
                | some b4 =>
                  match destroyAt b4 v.size_ with
                  | some b5 => .exn ⟨b5, v.size_⟩ []
                  | none => .ub
              else
                match evalArg b3 arg with
                | none => .ub
                | some a =>
                  match assignAt b3 index a with
                  | some b4 => .ok ⟨b4, v.size_ + 1⟩
                  | none => .ub
  else
    match relocLoopN nm cc mf failAt v.data_
        (List.replicate (if v.Capacity = 0 then 1 else 2 * v.Capacity) none) 0 0 index with
    | .thrown old1 nd1 i =>
      match destroyRange nd1 0 i with
      | some nd2 => .exn ⟨old1, v.size_⟩ (liveList nd2)
      | none => .ub
    | .ub => .ub
    | .done old1 nd1 =>
      if failAt = some index then
        match destroyRange nd1 0 index with
        | some nd2 => .exn ⟨old1, v.size_⟩ (liveList nd2)
        | none => .ub
      else
        match evalArg old1 arg with
        | none => .ub
        | some a =>
          match constructAt nd1 index a with
          | none => .ub
          | some nd2 =>
            match relocLoopN nm cc mf failAt old1 nd2 index (index + 1) (v.size_ - index) with
            | .done old2 nd3 =>
              match destroyRange old2 0 v.size_ with
              | some _ => .ok ⟨nd3, v.size_ + 1⟩
              | none => .ub
            | .thrown old2 nd3 i =>
              match destroyRange nd3 0 i with
              | some nd4 => .exn ⟨old2, v.size_⟩ (liveList nd4)
              | none => .ub
            | .ub => .ub

/-- Vector::Insert (vector.h lines 367-385): when the argument is a
reference to an element living inside the array (its address lies in
`data_ .. data_ + size_`), the value is staged into a temporary before
Emplace runs; otherwise the argument is forwarded as is. -/
def Insert (v : Vector α) (index : Nat) (arg : Arg α) (nm cc : Bool)
    (mf : α → α) (failAt : Option Nat) : Res α :=
  match arg with
  | .ref i =>
    if i < v.size_ then
      match readSlot v.data_ i with
      | none => .ub
      | some tmp => Emplace v index (.val tmp) nm cc mf failAt
    else Emplace v index arg nm cc mf failAt
  | .val a => Emplace v index (.val a) nm cc mf failAt

/-- The catch of the storage-reuse branch of copy assignment (vector.h lines
140-145): destroy slots `i` to `rhsSize - 1` and rethrow with the size
unchanged. -/
def carCatch (b : Buf α) (i rhsSize aSize : Nat) : Res α :=
  match destroyRange b i (rhsSize - i) with
  | some b1 => .exn ⟨b1, aSize⟩ []
  | none => .ub

/-- Second loop of the reuse branch (vector.h lines 132-138): copy-construct
rhs elements into the slots past the old size, then destroy any surplus old
elements and commit the new size. -/
def carLoop2 (rb : Buf α) (failAt : Option Nat) (aSize rhsSize : Nat) :
    Buf α → Nat → Nat → Res α
  | b, _, 0 =>
    match destroyRange b rhsSize (aSize - rhsSize) with
    | some b1 => .ok ⟨b1, rhsSize⟩
    | none => .ub
  | b, i, c + 1 =>
    if failAt = some i then carCatch b i rhsSize aSize
    else
      match readSlot rb i with
      | none => .ub
      | some x =>
        match constructAt b i x with
        | none => .ub
        | some b1 => carLoop2 rb failAt aSize rhsSize b1 (i + 1) c

/-- First loop of the reuse branch (vector.h lines 129-131): copy-assign
over the overlapping prefix. -/
def carLoop1 (rb : Buf α) (failAt : Option Nat) (aSize rhsSize : Nat) :
    Buf α → Nat → Nat → Res α
  | b, i, 0 => carLoop2 rb failAt aSize rhsSize b i (rhsSize - i)
  | b, i, c + 1 =>
    if failAt = some i then carCatch b i rhsSize aSize
    else
      match readSlot rb i with
      | none => .ub
      | some x =>
        match assignAt b i x with
        | none => .ub
        | some b1 => carLoop1 rb failAt aSize rhsSize b1 (i + 1) c

/-- Vector copy assignment (vector.h lines 120-149).  `same` models the
address comparison `this != &rhs`.  Element copy operations are numbered by
the loop index `i` of the branch taken: in the temporary-copy branch these
are the copies of the copy constructor, in the reuse branch the assignments
and constructions indexed by `i`. -/
def CopyAssign (same : Bool) (a rhs : Vector α) (failAt : Option Nat) : Res α :=
  if same then .ok a
  else if a.Capacity < rhs.size_ then
    match ucLoop failAt 0 (List.replicate rhs.size_ none) rhs.live 0 with
    | .done tb =>
      match destroyRange a.data_ 0 a.size_ with
      | some _ => .ok ⟨tb, rhs.size_⟩
      | none => .ub
    | .thrown _ => .exn a []
    | .ub => .ub
  else carLoop1 rhs.data_ failAt a.size_ rhs.size_ a.data_ 0 (min a.size_ rhs.size_)

/-- Vector move assignment (vector.h lines 151-158): swap the buffers, swap
the sizes, then zero the source size.  `same` models the address
comparison. -/
def MoveAssign (same : Bool) (a rhs : Vector α) : Vector α × Vector α :=
  if same then (a, rhs)
  else (⟨rhs.data_, rhs.size_⟩, ⟨a.data_, 0⟩)

/-- Capacity evolution of one EmplaceBack from size `n`, capacity `c`:
unchanged if there is spare room, else doubled with a minimum of 1
(vector.h line 221). -/
def capStep (n c : Nat) : Nat := if n < c then c else if c = 0 then 1 else 2 * c

/-- Capacity after `m` successive pushes starting from size `n` and capacity
`c`. -/
def capN : Nat → Nat → Nat → Nat
  | _, c, 0 => c
  | n, c, m + 1 => capN (n + 1) (capStep n c) m

/-- Spare slots left after an EmplaceBack or Emplace on a vector of size `n`
with `k` spare slots. -/
def spareAfterGrow (n k : Nat) : Nat :=
  if k = 0 then (if n = 0 then 1 else 2 * n) - (n + 1) else k - 1

/-! ### Basic lemmas about slots and buffers -/

theorem get?_append_len (pre : Buf α) (x : Option α) (post : Buf α) :
    (pre ++ x :: post).get? pre.length = some x := by
  induction pre with
  | nil => rfl
  | cons h t ih => simpa using ih

theorem set_append_len (pre : Buf α) (x y : Option α) (post : Buf α) :
    (pre ++ x :: post).set pre.length y = pre ++ y :: post := by
  induction pre with
  | nil => rfl
  | cons h t ih => simp [ih]

theorem readSlot_append (pre : Buf α) (a : α) (post : Buf α) :
    readSlot (pre ++ some a :: post) pre.length = some a := by
  unfold readSlot
  rw [get?_append_len]

theorem constructAt_append (pre : Buf α) (post : Buf α) (a : α) :
    constructAt (pre ++ none :: post) pre.length a = some (pre ++ some a :: post) := by
  unfold constructAt
  rw [get?_append_len]
  show some ((pre ++ none :: post).set pre.length (some a)) = _
  rw [set_append_len]

theorem assignAt_append (pre : Buf α) (b0 : α) (post : Buf α) (a : α) :
    assignAt (pre ++ some b0 :: post) pre.length a = some (pre ++ some a :: post) := by
  unfold assignAt
  rw [get?_append_len]
  show some ((pre ++ some b0 :: post).set pre.length (some a)) = _
  rw [set_append_len]

theorem destroyAt_append (pre : Buf α) (b0 : α) (post : Buf α) :
    destroyAt (pre ++ some b0 :: post) pre.length = some (pre ++ none :: post) := by
  unfold destroyAt
  rw [get?_append_len]
  show some ((pre ++ some b0 :: post).set pre.length none) = _
  rw [set_append_len]

theorem destroyRange_suffix (zs : List α) : ∀ (pre post : Buf α),
    destroyRange (pre ++ zs.map some ++ post) pre.length zs.length
      = some (pre ++ List.replicate zs.length none ++ post) := by
  induction zs with
  | nil => intro pre post; simp [destroyRange]
  | cons z rest ih =>
    intro pre post
    have hb : pre ++ (z :: rest).map some ++ post
        = pre ++ some z :: (rest.map some ++ post) := by
      simp
    rw [List.length_cons, destroyRange, hb, destroyAt_append]
    show destroyRange (pre ++ none :: (rest.map some ++ post)) (pre.length + 1) rest.length = _
    have hb2 : pre ++ none :: (rest.map some ++ post)
        = (pre ++ [none]) ++ rest.map some ++ post := by
      simp
    have hl : pre.length + 1 = (pre ++ [none]).length := by simp
    rw [hb2, hl, ih (pre ++ [none]) post]
    simp [List.replicate_succ]

theorem liveList_append (b1 b2 : Buf α) :
    liveList (b1 ++ b2) = liveList b1 ++ liveList b2 := by
  simp [liveList]

theorem liveList_replicate_none (n : Nat) :
    liveList (List.replicate n none : Buf α) = [] := by
  induction n with
  | zero => rfl
  | succ m ih => simpa [liveList, List.replicate_succ] using ih

theorem readSlot_mkBuf (xs : List α) (k : Nat) : ∀ i, i < xs.length →
    readSlot (mkBuf xs k) i = xs.get? i := by
  induction xs with
  | nil => intro i h; exact absurd h (by simp)
  | cons x rest ih =>
    intro i h
    cases i with
    | zero => rfl
    | succ j => exact ih j (by simpa using h)

/-! ### Aggregate behavior of the relocation loop -/

theorem relocLoopN_ok (nm cc : Bool) (mf : α → α) (failAt : Option Nat) (zs : List α) :
    ∀ (preO postO preN postN : Buf α),
    (∀ j, preN.length ≤ j → j < preN.length + zs.length → ¬(nm = false ∧ failAt = some j)) →
    relocLoopN nm cc mf failAt (preO ++ zs.map some ++ postO)
        (preN ++ List.replicate zs.length none ++ postN) preO.length preN.length zs.length
      = .done (preO ++ (if selectMove nm cc then zs.map mf else zs).map some ++ postO)
          (preN ++ zs.map some ++ postN) := by
  induction zs with
  | nil =>
    intro preO postO preN postN h
    cases hm : selectMove nm cc <;> simp [relocLoopN, hm]
  | cons z rest ih =>
    intro preO postO preN postN h
    have hnothrow : ¬(nm = false ∧ failAt = some preN.length) :=
      h preN.length le_rfl (by simp)
    have ho : preO ++ (z :: rest).map some ++ postO
        = preO ++ some z :: (rest.map some ++ postO) := by simp
    have hn : preN ++ List.replicate (z :: rest).length none ++ postN
        = preN ++ none :: (List.replicate rest.length none ++ postN) := by
      simp [List.replicate_succ]
    rw [ho, hn, List.length_cons, relocLoopN, if_neg hnothrow, readSlot_append]
    show (match constructAt (preN ++ none :: (List.replicate rest.length none ++ postN))
        preN.length z with
      | none => RelocRes.ub
      | some nd1 => relocLoopN nm cc mf failAt
          (if selectMove nm cc
            then (preO ++ some z :: (rest.map some ++ postO)).set preO.length (some (mf z))
            else preO ++ some z :: (rest.map some ++ postO))
          nd1 (preO.length + 1) (preN.length + 1) rest.length) = _
    rw [constructAt_append]
    have h2 : ∀ j, (preN ++ [some z]).length ≤ j →
        j < (preN ++ [some z]).length + rest.length → ¬(nm = false ∧ failAt = some j) := by
      intro j hj1 hj2
      refine h j ?_ ?_
      · simp at hj1; omega
      · simp at hj2 ⊢; omega
    cases hm : selectMove nm cc with
    | true =>
      show relocLoopN nm cc mf failAt (if true = true then _ else _) _ _ _ _ = _
      rw [if_pos rfl, set_append_len]
      have e1 : preO ++ some (mf z) :: (rest.map some ++ postO)
          = (preO ++ [some (mf z)]) ++ rest.map some ++ postO := by simp
      have e2 : preN ++ some z :: (List.replicate rest.length none ++ postN)
          = (preN ++ [some z]) ++ List.replicate rest.length none ++ postN := by simp
      have e3 : preO.length + 1 = (preO ++ [some (mf z)]).length := by simp
      have e4 : preN.length + 1 = (preN ++ [some z]).length := by simp
      rw [e1, e2, e3, e4, ih (preO ++ [some (mf z)]) postO (preN ++ [some z]) postN h2]
      simp [hm]
    | false =>
      show relocLoopN nm cc mf failAt (if false = true then _ else _) _ _ _ _ = _
      rw [if_neg (by simp)]
      have e1 : preO ++ some z :: (rest.map some ++ postO)
          = (preO ++ [some z]) ++ rest.map some ++ postO := by simp
      have e2 : preN ++ some z :: (List.replicate rest.length none ++ postN)
          = (preN ++ [some z]) ++ List.replicate rest.length none ++ postN := by simp
      have e3 : preO.length + 1 = (preO ++ [some z]).length := by simp
      have e4 : preN.length + 1 = (preN ++ [some z]).length := by simp
      rw [e1, e2, e3, e4, ih (preO ++ [some z]) postO (preN ++ [some z]) postN h2]
      simp [hm]

theorem relocLoopN_thrown (cc : Bool) (mf : α → α) (z2 : List α) (hz : z2 ≠ []) (z1 : List α) :
    ∀ (preO postO preN postN : Buf α),
    relocLoopN false cc mf (some (preN.length + z1.length))
        (preO ++ (z1 ++ z2).map some ++ postO)
        (preN ++ List.replicate (z1 ++ z2).length none ++ postN)
        preO.length preN.length (z1 ++ z2).length
      = .thrown
          (preO ++ ((if selectMove false cc then z1.map mf else z1) ++ z2).map some ++ postO)
          (preN ++ z1.map some ++ (List.replicate z2.length none ++ postN))
          (preN.length + z1.length) := by
  induction z1 with
  | nil =>
    intro preO postO preN postN
    rcases z2 with _ | ⟨w, z2t⟩
    · exact absurd rfl hz
    · rw [List.nil_append, List.length_cons, relocLoopN,
        if_pos ⟨rfl, by simp⟩]
      cases hm : selectMove false cc <;> simp [hm]
  | cons z rest ih =>
    intro preO postO preN postN
    have hnothrow : ¬((false : Bool) = false ∧
        (some (preN.length + (z :: rest).length) : Option Nat) = some preN.length) := by
      rintro ⟨-, he⟩
      rcases Option.some.injEq .. ▸ he with h2
      simp at h2
    have hcount : (z :: rest ++ z2).length = (rest ++ z2).length + 1 := by simp
    have ho : preO ++ (z :: rest ++ z2).map some ++ postO
        = preO ++ some z :: ((rest ++ z2).map some ++ postO) := by simp
    have hn : preN ++ List.replicate (z :: rest ++ z2).length none ++ postN
        = preN ++ none :: (List.replicate (rest ++ z2).length none ++ postN) := by
      simp [List.replicate_succ]
    rw [ho, hn, hcount, relocLoopN, if_neg (by simpa using hnothrow), readSlot_append]
    show (match constructAt (preN ++ none :: (List.replicate (rest ++ z2).length none ++ postN))
        preN.length z with
      | none => RelocRes.ub
      | some nd1 => relocLoopN false cc mf (some (preN.length + (z :: rest).length))
          (if selectMove false cc
            then (preO ++ some z :: ((rest ++ z2).map some ++ postO)).set preO.length
              (some (mf z))
            else preO ++ some z :: ((rest ++ z2).map some ++ postO))
          nd1 (preO.length + 1) (preN.length + 1) (rest ++ z2).length) = _
    rw [constructAt_append]
    have hidx : preN.length + (z :: rest).length = (preN ++ [some z]).length + rest.length := by
      simp; omega
    cases hm : selectMove false cc with
    | true =>
      show relocLoopN false cc mf _ (if true = true then _ else _) _ _ _ _ = _
      rw [if_pos rfl, set_append_len]
      have e1 : preO ++ some (mf z) :: ((rest ++ z2).map some ++ postO)
          = (preO ++ [some (mf z)]) ++ (rest ++ z2).map some ++ postO := by simp
      have e2 : preN ++ some z :: (List.replicate (rest ++ z2).length none ++ postN)
          = (preN ++ [some z]) ++ List.replicate (rest ++ z2).length none ++ postN := by simp
      have e3 : preO.length + 1 = (preO ++ [some (mf z)]).length := by simp
      have e4 : preN.length + 1 = (preN ++ [some z]).length := by simp
      rw [e1, e2, e3, e4, hidx, ih (preO ++ [some (mf z)]) postO (preN ++ [some z]) postN]
      simp [hm]
    | false =>
      show relocLoopN false cc mf _ (if false = true then _ else _) _ _ _ _ = _
      rw [if_neg (by simp)]
      have e1 : preO ++ some z :: ((rest ++ z2).map some ++ postO)
          = (preO ++ [some z]) ++ (rest ++ z2).map some ++ postO := by simp
      have e2 : preN ++ some z :: (List.replicate (rest ++ z2).length none ++ postN)
          = (preN ++ [some z]) ++ List.replicate (rest ++ z2).length none ++ postN := by simp
      have e3 : preO.length + 1 = (preO ++ [some z]).length := by simp
      have e4 : preN.length + 1 = (preN ++ [some z]).length := by simp
      rw [e1, e2, e3, e4, hidx, ih (preO ++ [some z]) postO (preN ++ [some z]) postN]
      simp [hm]

/-! ### Aggregate behavior of the shifting loops -/

theorem moveBackwardN_agg (mf : α → α) (mid : List α) :
    ∀ (pre : Buf α) (c0 : α) (post : Buf α),
    moveBackwardN mf (pre ++ mid.map some ++ some c0 :: post)
        (pre.length + mid.length) (pre.length + mid.length + 1) mid.length
      = some (pre ++ (match mid with
          | [] => [some c0]
          | m :: _ => some (mf m) :: mid.map some) ++ post) := by
  induction mid using List.reverseRecOn with
  | nil => intro pre c0 post; simp [moveBackwardN]
  | append_singleton ys z ih =>
    intro pre c0 post
    have hc : (ys ++ [z]).length = ys.length + 1 := by simp
    have hbuf : pre ++ (ys ++ [z]).map some ++ some c0 :: post
        = (pre ++ ys.map some) ++ some z :: (some c0 :: post) := by simp
    rw [hc, hbuf, moveBackwardN]
    have h1 : pre.length + (ys.length + 1) - 1 = (pre ++ ys.map some).length := by simp
    rw [h1]
    rw [readSlot_append]
    show (match assignAt ((pre ++ ys.map some) ++ some z :: (some c0 :: post))
        (pre.length + (ys.length + 1) + 1 - 1) z with
      | none => none
      | some b1 => moveBackwardN mf (b1.set ((pre ++ ys.map some).length) (some (mf z)))
          ((pre ++ ys.map some).length) (pre.length + (ys.length + 1) + 1 - 1) ys.length) = _
    have h2 : pre.length + (ys.length + 1) + 1 - 1 = ((pre ++ ys.map some) ++ [some z]).length := by
      simp
    have hbuf2 : (pre ++ ys.map some) ++ some z :: (some c0 :: post)
        = ((pre ++ ys.map some) ++ [some z]) ++ some c0 :: post := by simp
    rw [h2, hbuf2, assignAt_append]
    show moveBackwardN mf
        ((((pre ++ ys.map some) ++ [some z]) ++ some z :: post).set
          ((pre ++ ys.map some).length) (some (mf z)))
        ((pre ++ ys.map some).length) (((pre ++ ys.map some) ++ [some z]).length) ys.length = _
    have hbuf3 : ((pre ++ ys.map some) ++ [some z]) ++ some z :: post
        = (pre ++ ys.map some) ++ some z :: (some z :: post) := by simp
    rw [hbuf3, set_append_len]
    have hi1 : (pre ++ ys.map some).length = pre.length + ys.length := by simp
    have hi2 : ((pre ++ ys.map some) ++ [some z]).length = pre.length + ys.length + 1 := by
      simp <;> omega
    rw [hi1, hi2]
    have hb4 : (pre ++ ys.map some) ++ some (mf z) :: (some z :: post)
        = pre ++ ys.map some ++ some (mf z) :: (some z :: post) := by simp
    rw [hb4, ih pre (mf z) (some z :: post)]
    cases ys <;> simp

theorem moveForwardN_agg (mf : α → α) (mid : List α) :
    ∀ (pre : Buf α) (c0 : α) (post : Buf α),
    moveForwardN mf (pre ++ some c0 :: mid.map some ++ post)
        (pre.length + 1) pre.length mid.length
      = some (pre ++ (match mid.getLast? with
          | none => [some c0]
          | some z => mid.map some ++ [some (mf z)]) ++ post) := by
  induction mid with
  | nil => intro pre c0 post; simp [moveForwardN]
  | cons m rest ih =>
    intro pre c0 post
    have hbuf : pre ++ some c0 :: (m :: rest).map some ++ post
        = (pre ++ [some c0]) ++ some m :: (rest.map some ++ post) := by simp
    rw [List.length_cons, hbuf, moveForwardN]
    have h1 : pre.length + 1 = (pre ++ [some c0]).length := by simp
    rw [h1, readSlot_append]
    show (match assignAt ((pre ++ [some c0]) ++ some m :: (rest.map some ++ post))
        pre.length m with
      | none => none
      | some b1 => moveForwardN mf (b1.set ((pre ++ [some c0]).length) (some (mf m)))
          ((pre ++ [some c0]).length + 1) ((pre ++ [some c0]).length) rest.length) = _
    have hbuf2 : (pre ++ [some c0]) ++ some m :: (rest.map some ++ post)
        = pre ++ some c0 :: (some m :: (rest.map some ++ post)) := by simp
    rw [hbuf2, assignAt_append]
    show moveForwardN mf
        ((pre ++ some m :: (some m :: (rest.map some ++ post))).set
          ((pre ++ [some c0]).length) (some (mf m)))
        ((pre ++ [some c0]).length + 1) ((pre ++ [some c0]).length) rest.length = _
    have hbuf3 : pre ++ some m :: (some m :: (rest.map some ++ post))
        = (pre ++ [some m]) ++ some m :: (rest.map some ++ post) := by simp
    have h2 : (pre ++ [some c0]).length = (pre ++ [some m]).length := by simp
    rw [hbuf3, h2, set_append_len]
    have hb5 : (pre ++ [some m]) ++ some (mf m) :: (rest.map some ++ post)
        = (pre ++ [some m]) ++ some (mf m) :: rest.map some ++ post := by simp
    rw [hb5, ih (pre ++ [some m]) (mf m) post]
    cases rest with
    | nil => simp
    | cons r rs =>
      rw [List.getLast?_cons_cons]
      rcases hg : (r :: rs).getLast? with _ | z
      · rw [List.getLast?_eq_none_iff] at hg
        simp at hg
      · simp [hg]

/-! ### Behavior of Reserve -/

theorem mkBuf_length (xs : List α) (k : Nat) : (mkBuf xs k).length = xs.length + k := by
  simp [mkBuf]

theorem Capacity_mk (xs : List α) (k n : Nat) :
    (⟨mkBuf xs k, n⟩ : Vector α).Capacity = xs.length + k := by
  simp [Vector.Capacity, mkBuf]

theorem Reserve_ok (xs : List α) (k newCap : Nat) (nm cc : Bool) (mf : α → α)
    (failAt : Option Nat) (hcap : xs.length + k < newCap)
    (hmiss : ∀ j, j < xs.length → ¬(nm = false ∧ failAt = some j)) :
    Reserve ⟨mkBuf xs k, xs.length⟩ newCap nm cc mf failAt
      = .ok ⟨mkBuf xs (newCap - xs.length), xs.length⟩ := by
  have hcap2 : (⟨mkBuf xs k, xs.length⟩ : Vector α).Capacity < newCap := by
    rw [Capacity_mk]; exact hcap
  unfold Reserve
  rw [if_pos hcap2]
  have hk := relocLoopN_ok nm cc mf failAt xs ([] : Buf α) (List.replicate k none)
    ([] : Buf α) (List.replicate (newCap - xs.length) none)
    (by intro j hj1 hj2; exact hmiss j (by simpa using hj2))
  simp only [List.nil_append, List.length_nil] at hk
  have hrep : (List.replicate newCap none : Buf α)
      = List.replicate xs.length none ++ List.replicate (newCap - xs.length) none := by
    rw [← List.replicate_add]
    congr 1
    omega
  show (match relocLoopN nm cc mf failAt (mkBuf xs k) (List.replicate newCap none)
      0 0 xs.length with
    | .done old1 nd1 =>
      match destroyRange old1 0 xs.length with
      | some _ => Res.ok ⟨nd1, xs.length⟩
      | none => Res.ub
    | .thrown old1 nd1 i =>
      match destroyRange nd1 0 i with
      | some nd2 => Res.exn ⟨old1, xs.length⟩ (liveList nd2)
      | none => Res.ub
    | .ub => Res.ub) = _
  rw [show mkBuf xs k = xs.map some ++ List.replicate k none from rfl, hrep, hk]
  show (match destroyRange ((if selectMove nm cc = true then xs.map mf else xs).map some
      ++ List.replicate k none) 0 xs.length with
    | some _ => Res.ok ⟨xs.map some ++ List.replicate (newCap - xs.length) none, xs.length⟩
    | none => Res.ub) = _
  have hlen : (if selectMove nm cc = true then xs.map mf else xs).length = xs.length := by
    cases selectMove nm cc <;> simp
  have hd := destroyRange_suffix (if selectMove nm cc = true then xs.map mf else xs)
    ([] : Buf α) (List.replicate k none)
  simp only [List.nil_append, List.length_nil] at hd
  rw [hlen] at hd
  rw [hd]
  rfl

theorem Reserve_thrown (z1 z2 : List α) (hz : z2 ≠ []) (k newCap : Nat) (cc : Bool)
    (mf : α → α) (hcap : (z1 ++ z2).length + k < newCap) :
    Reserve ⟨mkBuf (z1 ++ z2) k, (z1 ++ z2).length⟩ newCap false cc mf (some z1.length)
      = .exn ⟨mkBuf ((if selectMove false cc then z1.map mf else z1) ++ z2) k,
          (z1 ++ z2).length⟩ [] := by
  have hcap2 : (⟨mkBuf (z1 ++ z2) k, (z1 ++ z2).length⟩ : Vector α).Capacity < newCap := by
    rw [Capacity_mk]; exact hcap
  unfold Reserve
  rw [if_pos hcap2]
  have hk := relocLoopN_thrown cc mf z2 hz z1 ([] : Buf α) (List.replicate k none)
    ([] : Buf α) (List.replicate (newCap - (z1 ++ z2).length) none)
  simp only [List.nil_append, List.length_nil, Nat.zero_add] at hk
  have hrep : (List.replicate newCap none : Buf α)
      = List.replicate (z1 ++ z2).length none
        ++ List.replicate (newCap - (z1 ++ z2).length) none := by
    rw [← List.replicate_add]
    congr 1
    omega
  show (match relocLoopN false cc mf (some z1.length) (mkBuf (z1 ++ z2) k)
      (List.replicate newCap none) 0 0 (z1 ++ z2).length with
    | .done old1 nd1 =>
      match destroyRange old1 0 (z1 ++ z2).length with
      | some _ => Res.ok ⟨nd1, (z1 ++ z2).length⟩
      | none => Res.ub
    | .thrown old1 nd1 i =>
      match destroyRange nd1 0 i with
      | some nd2 => Res.exn ⟨old1, (z1 ++ z2).length⟩ (liveList nd2)
      | none => Res.ub
    | .ub => Res.ub) = _
  rw [show mkBuf (z1 ++ z2) k = (z1 ++ z2).map some ++ List.replicate k none from rfl,
    hrep, hk]
  show (match destroyRange (z1.map some ++ (List.replicate z2.length none
      ++ List.replicate (newCap - (z1 ++ z2).length) none)) 0 z1.length with
    | some nd2 => Res.exn ⟨((if selectMove false cc = true then z1.map mf else z1) ++ z2).map some
        ++ List.replicate k none, (z1 ++ z2).length⟩ (liveList nd2)
    | none => Res.ub) = _
  have hd := destroyRange_suffix z1 ([] : Buf α)
    (List.replicate z2.length none ++ List.replicate (newCap - (z1 ++ z2).length) none)
  simp only [List.nil_append, List.length_nil] at hd
  rw [hd]
  show Res.exn ⟨((if selectMove false cc = true then z1.map mf else z1) ++ z2).map some
      ++ List.replicate k none, (z1 ++ z2).length⟩
    (liveList (List.replicate z1.length none
      ++ (List.replicate z2.length none
        ++ List.replicate (newCap - (z1 ++ z2).length) none))) = _
  rw [liveList_append, liveList_append, liveList_replicate_none, liveList_replicate_none,
    liveList_replicate_none]
  rfl

/-! ### Behavior of EmplaceBack and sequences of pushes -/

theorem EmplaceBack_ok (xs : List α) (k : Nat) (x : α) (nm cc : Bool) (mf : α → α) :
    EmplaceBack ⟨mkBuf xs k, xs.length⟩ x nm cc mf none
      = .ok ⟨mkBuf (xs ++ [x]) (spareAfterGrow xs.length k), xs.length + 1⟩ := by
  cases k with
  | succ k0 =>
    have hlt : (⟨mkBuf xs (k0 + 1), xs.length⟩ : Vector α).size_
        < (⟨mkBuf xs (k0 + 1), xs.length⟩ : Vector α).Capacity := by
      show xs.length < (mkBuf xs (k0 + 1)).length
      rw [mkBuf_length]
      omega
    unfold EmplaceBack
    rw [if_pos hlt, if_neg (by simp)]
    have he : mkBuf xs (k0 + 1) = xs.map some ++ none :: List.replicate k0 none := by
      simp [mkBuf, List.replicate_succ]
    have hca : constructAt (xs.map some ++ none :: List.replicate k0 none) xs.length x
        = some (xs.map some ++ some x :: List.replicate k0 none) := by
      have := constructAt_append (xs.map some : Buf α) (List.replicate k0 none) x
      simpa using this
    show (match constructAt (mkBuf xs (k0 + 1)) xs.length x with
      | some b1 => Res.ok ⟨b1, xs.length + 1⟩
      | none => Res.ub) = _
    rw [he, hca]
    show Res.ok ⟨xs.map some ++ some x :: List.replicate k0 none, xs.length + 1⟩ = _
    have hb : (xs.map some : Buf α) ++ some x :: List.replicate k0 none
        = mkBuf (xs ++ [x]) k0 := by simp [mkBuf]
    rw [hb]
    simp [spareAfterGrow]
  | zero =>
    have hge : ¬((⟨mkBuf xs 0, xs.length⟩ : Vector α).size_
        < (⟨mkBuf xs 0, xs.length⟩ : Vector α).Capacity) := by
      show ¬(xs.length < (mkBuf xs 0).length)
      rw [mkBuf_length]
      omega
    unfold EmplaceBack
    rw [if_neg hge, if_neg (by simp)]
    have hcap0 : (⟨mkBuf xs 0, xs.length⟩ : Vector α).Capacity = xs.length := by
      simp [Vector.Capacity, mkBuf]
    rw [hcap0]
    have hsplit : (List.replicate (if xs.length = 0 then 1 else 2 * xs.length) none : Buf α)
        = List.replicate xs.length none
          ++ none :: List.replicate
            ((if xs.length = 0 then 1 else 2 * xs.length) - (xs.length + 1)) none := by
      rw [show (none : Option α) :: List.replicate
            ((if xs.length = 0 then 1 else 2 * xs.length) - (xs.length + 1)) none
          = List.replicate
            ((if xs.length = 0 then 1 else 2 * xs.length) - (xs.length + 1) + 1) none
          from (List.replicate_succ ..).symm,
        ← List.replicate_add]
      congr 1
      by_cases h0 : xs.length = 0 <;> simp [h0] <;> omega
    have hca : constructAt (List.replicate xs.length none
          ++ none :: List.replicate
            ((if xs.length = 0 then 1 else 2 * xs.length) - (xs.length + 1)) none)
          xs.length x
        = some (List.replicate xs.length none
          ++ some x :: List.replicate
            ((if xs.length = 0 then 1 else 2 * xs.length) - (xs.length + 1)) none) := by
      have := constructAt_append (List.replicate xs.length (none : Option α))
        (List.replicate ((if xs.length = 0 then 1 else 2 * xs.length) - (xs.length + 1)) none) x
      simpa using this
    show (match constructAt (List.replicate (if xs.length = 0 then 1 else 2 * xs.length) none)
        xs.length x with
      | none => Res.ub
      | some nd1 =>
        match relocLoopN nm cc mf (shiftOracle none) (mkBuf xs 0) nd1 0 0 xs.length with
        | .done old1 nd2 =>
          match destroyRange old1 0 xs.length with
          | some _ => Res.ok ⟨nd2, xs.length + 1⟩
          | none => Res.ub
        | .thrown old1 nd2 i =>
          match destroyRange nd2 0 (i + 1) with
          | some nd3 => Res.exn ⟨old1, xs.length⟩ (liveList nd3)
          | none => Res.ub
        | .ub => Res.ub) = _
    rw [hsplit, hca]
    show (match relocLoopN nm cc mf (shiftOracle none) (mkBuf xs 0)
        (List.replicate xs.length none
          ++ some x :: List.replicate
            ((if xs.length = 0 then 1 else 2 * xs.length) - (xs.length + 1)) none)
        0 0 xs.length with
      | .done old1 nd2 =>
        match destroyRange old1 0 xs.length with
        | some _ => Res.ok ⟨nd2, xs.length + 1⟩
        | none => Res.ub
      | .thrown old1 nd2 i =>
        match destroyRange nd2 0 (i + 1) with
        | some nd3 => Res.exn ⟨old1, xs.length⟩ (liveList nd3)
        | none => Res.ub
      | .ub => Res.ub) = _
    have hk := relocLoopN_ok nm cc mf (shiftOracle none) xs ([] : Buf α) ([] : Buf α)
      ([] : Buf α)
      (some x :: List.replicate
        ((if xs.length = 0 then 1 else 2 * xs.length) - (xs.length + 1)) none)
      (by intro j hj1 hj2; simp [shiftOracle])
    simp only [List.nil_append, List.append_nil, List.length_nil] at hk
    rw [show mkBuf xs 0 = xs.map some from by simp [mkBuf], hk]
    show (match destroyRange ((if selectMove nm cc = true then xs.map mf else xs).map some)
        0 xs.length with
      | some _ => Res.ok ⟨xs.map some ++ some x :: List.replicate
          ((if xs.length = 0 then 1 else 2 * xs.length) - (xs.length + 1)) none,
          xs.length + 1⟩
      | none => Res.ub) = _
    have hlen : (if selectMove nm cc = true then xs.map mf else xs).length = xs.length := by
      cases selectMove nm cc <;> simp
    have hd := destroyRange_suffix (if selectMove nm cc = true then xs.map mf else xs)
      ([] : Buf α) ([] : Buf α)
    simp only [List.nil_append, List.append_nil, List.length_nil] at hd
    rw [hlen] at hd
    rw [hd]
    show Res.ok ⟨xs.map some ++ some x :: List.replicate
        ((if xs.length = 0 then 1 else 2 * xs.length) - (xs.length + 1)) none,
        xs.length + 1⟩ = _
    have hb : (xs.map some : Buf α) ++ some x :: List.replicate
        ((if xs.length = 0 then 1 else 2 * xs.length) - (xs.length + 1)) none
        = mkBuf (xs ++ [x])
            ((if xs.length = 0 then 1 else 2 * xs.length) - (xs.length + 1)) := by
      simp [mkBuf]
    rw [hb]
    simp [spareAfterGrow]

theorem capStep_ge (n c : Nat) (h : n ≤ c) : n + 1 ≤ capStep n c := by
  unfold capStep
  by_cases h1 : n < c
  · rw [if_pos h1]; omega
  · rw [if_neg h1]
    by_cases h2 : c = 0
    · rw [if_pos h2]; omega
    · rw [if_neg h2]; omega

theorem spareAfterGrow_capStep (n k : Nat) :
    n + 1 + spareAfterGrow n k = capStep n (n + k) := by
  cases k with
  | zero =>
    unfold spareAfterGrow capStep
    by_cases h0 : n = 0 <;> simp [h0] <;> omega
  | succ k0 =>
    unfold spareAfterGrow capStep
    rw [if_neg (by omega), if_pos (by omega)]
    omega

theorem pushMany_mkBuf (nm cc : Bool) (mf : α → α) (ys : List α) :
    ∀ (xs : List α) (k : Nat),
    pushMany nm cc mf ⟨mkBuf xs k, xs.length⟩ ys
      = .ok ⟨mkBuf (xs ++ ys)
          (capN xs.length (xs.length + k) ys.length - (xs.length + ys.length)),
          xs.length + ys.length⟩ := by
  induction ys with
  | nil =>
    intro xs k
    show Res.ok ⟨mkBuf xs k, xs.length⟩ = _
    simp [capN]
  | cons y rest ih =>
    intro xs k
    show (match PushBack ⟨mkBuf xs k, xs.length⟩ y nm cc mf none with
      | .ok v1 => pushMany nm cc mf v1 rest
      | r => r) = _
    rw [PushBack, EmplaceBack_ok]
    show pushMany nm cc mf
      ⟨mkBuf (xs ++ [y]) (spareAfterGrow xs.length k), xs.length + 1⟩ rest = _
    have hthis := ih (xs ++ [y]) (spareAfterGrow xs.length k)
    rw [show (xs ++ [y]).length = xs.length + 1 from by simp] at hthis
    rw [hthis]
    have hcs : xs.length + 1 + spareAfterGrow xs.length k
        = capStep xs.length (xs.length + k) := spareAfterGrow_capStep xs.length k
    have hcapn : capN xs.length (xs.length + k) (y :: rest).length
        = capN (xs.length + 1) (xs.length + 1 + spareAfterGrow xs.length k) rest.length := by
      rw [hcs]
      rfl
    rw [hcapn]
    have hl : (xs ++ [y]) ++ rest = xs ++ y :: rest := by simp
    rw [hl]
    have hn : xs.length + 1 + rest.length = xs.length + (y :: rest).length := by
      simp
      omega
    rw [hn]

theorem capN_pow2 (m : Nat) : ∀ (n c : Nat),
    ((n = 0 ∧ c = 0) ∨ (1 ≤ n ∧ n ≤ c ∧ c < 2 * n ∧ ∃ j, c = 2 ^ j)) →
    ((n + m = 0 ∧ capN n c m = 0)
      ∨ (1 ≤ n + m ∧ n + m ≤ capN n c m ∧ capN n c m < 2 * (n + m)
          ∧ ∃ j, capN n c m = 2 ^ j)) := by
  induction m with
  | zero =>
    intro n c h
    simpa [capN] using h
  | succ m0 ih =>
    intro n c h
    have hstep : ((n + 1 = 0 ∧ capStep n c = 0)
        ∨ (1 ≤ n + 1 ∧ n + 1 ≤ capStep n c ∧ capStep n c < 2 * (n + 1)
            ∧ ∃ j, capStep n c = 2 ^ j)) := by
      right
      rcases h with ⟨hn, hc⟩ | ⟨h1, h2, h3, j, hj⟩
      · subst hn
        subst hc
        refine ⟨by omega, ?_, ?_, 0, ?_⟩ <;> simp [capStep]
      · by_cases hlt : n < c
        · rw [capStep, if_pos hlt]
          exact ⟨by omega, by omega, by omega, j, hj⟩
        · rw [capStep, if_neg hlt, if_neg (by omega)]
          refine ⟨by omega, by omega, by omega, j + 1, ?_⟩
          rw [hj, Nat.pow_succ, Nat.mul_comm]
    have := ih (n + 1) (capStep n c) hstep
    rw [show capN n c (m0 + 1) = capN (n + 1) (capStep n c) m0 from rfl]
    rw [show n + (m0 + 1) = n + 1 + m0 from by omega]
    exact this

theorem pow2_least (n c j : Nat) (hc : c = 2 ^ j) (h1 : n ≤ c) (h2 : c < 2 * n) :
    ∀ i, n ≤ 2 ^ i → c ≤ 2 ^ i := by
  intro i hi
  subst hc
  by_contra hlt
  push_neg at hlt
  have hij : i < j := (Nat.pow_lt_pow_iff_right (by norm_num)).mp hlt
  have h4 : 2 ^ (i + 1) ≤ 2 ^ j := Nat.pow_le_pow_right (by norm_num) (by omega)
  rw [Nat.pow_succ] at h4
  omega

/-! ### Behavior of Emplace and Insert -/

theorem take_len_append (A L2 : List α) : (A ++ L2).take A.length = A := by
  rw [List.take_append_of_le_length le_rfl, List.take_length]

theorem drop_len_append (A L2 : List α) : (A ++ L2).drop A.length = L2 := by
  rw [List.drop_append_of_le_length le_rfl, List.drop_length, List.nil_append]

theorem Emplace_val_ok (xs : List α) (k pos : Nat) (a : α) (nm cc : Bool) (mf : α → α)
    (hpos : pos ≤ xs.length) :
    Emplace ⟨mkBuf xs k, xs.length⟩ pos (Arg.val a) nm cc mf none
      = .ok ⟨mkBuf (xs.take pos ++ a :: xs.drop pos) (spareAfterGrow xs.length k),
          xs.length + 1⟩ := by
  cases k with
  | succ k0 =>
    have hlt : (⟨mkBuf xs (k0 + 1), xs.length⟩ : Vector α).size_
        < (⟨mkBuf xs (k0 + 1), xs.length⟩ : Vector α).Capacity := by
      show xs.length < (mkBuf xs (k0 + 1)).length
      rw [mkBuf_length]
      omega
    by_cases hend : pos = xs.length
    · unfold Emplace
      rw [if_pos hlt,
        if_pos (show pos = (⟨mkBuf xs (k0 + 1), xs.length⟩ : Vector α).size_ from hend),
        if_neg (by simp)]
      simp only []
      have hca : constructAt (mkBuf xs (k0 + 1)) xs.length a
          = some (xs.map some ++ some a :: List.replicate k0 none) := by
        rw [show mkBuf xs (k0 + 1) = xs.map some ++ none :: List.replicate k0 none from by
            simp [mkBuf, List.replicate_succ],
          show xs.length = (xs.map some).length from by simp]
        exact constructAt_append ..
      simp only [evalArg]
      rw [hca]
      simp only []
      have hb : (xs.map some : Buf α) ++ some a :: List.replicate k0 none
          = mkBuf (xs.take pos ++ a :: xs.drop pos) k0 := by
        rw [hend]
        simp [mkBuf]
      rw [hb]
      simp [spareAfterGrow]
    · have hposlt : pos < xs.length := lt_of_le_of_ne hpos hend
      rcases List.eq_nil_or_concat' xs with rfl | ⟨ys, w, rfl⟩
      · simp at hposlt
      · have hposys : pos ≤ ys.length := by
          simp at hposlt
          omega
        obtain ⟨A, B, hys, hA⟩ : ∃ A B, ys = A ++ B ∧ A.length = pos :=
          ⟨ys.take pos, ys.drop pos, (List.take_append_drop ..).symm, by
            rw [List.length_take]
            omega⟩
        subst hys
        have hne : ¬(pos = (⟨mkBuf ((A ++ B) ++ [w]) (k0 + 1),
            ((A ++ B) ++ [w]).length⟩ : Vector α).size_) := by
          show ¬(pos = ((A ++ B) ++ [w]).length)
          intro hcon
          simp at hcon
          omega
        unfold Emplace
        rw [if_pos hlt, if_neg hne, if_neg (by simp)]
        simp only []
        have hrd : readSlot (mkBuf ((A ++ B) ++ [w]) (k0 + 1))
            (((A ++ B) ++ [w]).length - 1) = some w := by
          rw [show mkBuf ((A ++ B) ++ [w]) (k0 + 1)
              = (A ++ B).map some ++ some w :: List.replicate (k0 + 1) none from by
              simp [mkBuf],
            show ((A ++ B) ++ [w]).length - 1 = ((A ++ B).map some).length from by simp]
          exact readSlot_append ..
        rw [hrd]
        simp only []
        have hct : constructAt (mkBuf ((A ++ B) ++ [w]) (k0 + 1)) ((A ++ B) ++ [w]).length w
            = some ((A ++ B).map some ++ some w :: (some w :: List.replicate k0 none)) := by
          rw [show mkBuf ((A ++ B) ++ [w]) (k0 + 1)
              = ((A ++ B).map some ++ [some w]) ++ none :: List.replicate k0 none from by
              simp [mkBuf, List.replicate_succ],
            show ((A ++ B) ++ [w]).length = ((A ++ B).map some ++ [some w]).length from by simp]
          rw [constructAt_append]
          congr 1
          simp
        rw [hct]
        simp only []
        have hst : ((A ++ B).map some ++ some w :: (some w :: List.replicate k0 none)).set
            (((A ++ B) ++ [w]).length - 1) (some (mf w))
            = (A ++ B).map some ++ some (mf w) :: (some w :: List.replicate k0 none) := by
          rw [show ((A ++ B) ++ [w]).length - 1 = ((A ++ B).map some).length from by simp]
          exact set_append_len ..
        rw [hst]
        have hmb0 := moveBackwardN_agg mf B (A.map some) (mf w)
          (some w :: List.replicate k0 none)
        rw [show ((A ++ B) ++ [w]).length - 1 - pos = B.length from by simp <;> omega,
          show ((A ++ B) ++ [w]).length - 1 = (A.map some).length + B.length from by
            simp <;> omega,
          show ((A ++ B) ++ [w]).length = (A.map some).length + B.length + 1 from by
            simp <;> omega,
          show ((A ++ B).map some : Buf α) ++ some (mf w) :: (some w :: List.replicate k0 none)
            = A.map some ++ B.map some ++ some (mf w) :: (some w :: List.replicate k0 none)
            from by simp,
          hmb0]
        simp only []
        rw [if_neg (show ¬((none : Option Nat) = some 1) from by simp)]
        simp only [evalArg]
        rcases B with _ | ⟨m, B1⟩
        · simp only []
          have hasg : assignAt ((A.map some ++ [some (mf w)])
                ++ (some w :: List.replicate k0 none)) pos a
              = some (A.map some ++ some a :: (some w :: List.replicate k0 none)) := by
            rw [show (A.map some ++ [some (mf w)]) ++ (some w :: List.replicate k0 none)
                = A.map some ++ some (mf w) :: (some w :: List.replicate k0 none) from by simp,
              show pos = (A.map some).length from by rw [List.length_map, hA]]
            exact assignAt_append ..
          rw [hasg]
          simp only []
          have hfin : (A.map some : Buf α) ++ some a :: (some w :: List.replicate k0 none)
              = mkBuf (((A ++ []) ++ [w]).take pos ++ a :: ((A ++ []) ++ [w]).drop pos) k0 := by
            rw [show ((A ++ []) ++ [w]) = A ++ [w] from by simp, ← hA,
              take_len_append, drop_len_append]
            simp [mkBuf]
          rw [hfin]
          simp [spareAfterGrow]
        · simp only []
          have hasg : assignAt ((A.map some ++ some (mf m) :: (m :: B1).map some)
                ++ (some w :: List.replicate k0 none)) pos a
              = some (A.map some ++ some a
                  :: ((m :: B1).map some ++ (some w :: List.replicate k0 none))) := by
            rw [show (A.map some ++ some (mf m) :: (m :: B1).map some)
                  ++ (some w :: List.replicate k0 none)
                = A.map some ++ some (mf m)
                  :: ((m :: B1).map some ++ (some w :: List.replicate k0 none)) from by simp,
              show pos = (A.map some).length from by rw [List.length_map, hA]]
            exact assignAt_append ..
          rw [hasg]
          simp only []
          have hfin : (A.map some : Buf α) ++ some a
                :: ((m :: B1).map some ++ (some w :: List.replicate k0 none))
              = mkBuf (((A ++ m :: B1) ++ [w]).take pos
                  ++ a :: ((A ++ m :: B1) ++ [w]).drop pos) k0 := by
            rw [List.append_assoc, ← hA, take_len_append, drop_len_append]
            simp [mkBuf]
          rw [hfin]
          simp [spareAfterGrow]
  | zero =>
    obtain ⟨A, B, hys, hA⟩ : ∃ A B, xs = A ++ B ∧ A.length = pos :=
      ⟨xs.take pos, xs.drop pos, (List.take_append_drop ..).symm, by
        rw [List.length_take]
        omega⟩
    subst hys
    have hposAB : pos ≤ (A ++ B).length := hpos
    have hge : ¬((⟨mkBuf (A ++ B) 0, (A ++ B).length⟩ : Vector α).size_
        < (⟨mkBuf (A ++ B) 0, (A ++ B).length⟩ : Vector α).Capacity) := by
      show ¬((A ++ B).length < (mkBuf (A ++ B) 0).length)
      rw [mkBuf_length]
      omega
    unfold Emplace
    rw [if_neg hge]
    have hcap : (⟨mkBuf (A ++ B) 0, (A ++ B).length⟩ : Vector α).Capacity
        = (A ++ B).length := by
      simp [Vector.Capacity, mkBuf]
    rw [hcap]
    simp only []
    have hN : (A ++ B).length + 1
        ≤ (if (A ++ B).length = 0 then 1 else 2 * (A ++ B).length) := by
      by_cases h0 : (A ++ B).length = 0
      · rw [if_pos h0]
        omega
      · rw [if_neg h0]
        omega
    have hLA : A.length ≤ (A ++ B).length := by simp
    have hLB : (A ++ B).length = A.length + B.length := by simp
    have hk1 := relocLoopN_ok nm cc mf none A ([] : Buf α) (B.map some) ([] : Buf α)
      (List.replicate ((if (A ++ B).length = 0 then 1 else 2 * (A ++ B).length) - pos) none)
      (by intro j hj1 hj2; simp)
    simp only [List.nil_append, List.length_nil] at hk1
    rw [hA] at hk1
    rw [show mkBuf (A ++ B) 0 = A.map some ++ B.map some from by simp [mkBuf],
      show (List.replicate (if (A ++ B).length = 0 then 1 else 2 * (A ++ B).length)
          (none : Option α))
        = List.replicate pos none
          ++ List.replicate ((if (A ++ B).length = 0 then 1 else 2 * (A ++ B).length) - pos)
            none from by
        rw [← List.replicate_add]
        congr 1
        omega,
      hk1]
    simp only []
    rw [if_neg (show ¬((none : Option Nat) = some pos) from by simp)]
    simp only [evalArg]
    have hct : constructAt (A.map some ++ List.replicate
          ((if (A ++ B).length = 0 then 1 else 2 * (A ++ B).length) - pos) none) pos a
        = some (A.map some ++ some a :: List.replicate
            ((if (A ++ B).length = 0 then 1 else 2 * (A ++ B).length) - pos - 1) none) := by
      rw [show (List.replicate
            ((if (A ++ B).length = 0 then 1 else 2 * (A ++ B).length) - pos)
            (none : Option α))
          = none :: List.replicate
            ((if (A ++ B).length = 0 then 1 else 2 * (A ++ B).length) - pos - 1) none from by
          conv_lhs => rw [show (if (A ++ B).length = 0 then 1 else 2 * (A ++ B).length) - pos
              = ((if (A ++ B).length = 0 then 1 else 2 * (A ++ B).length) - pos - 1) + 1 from by
              omega]
          rw [List.replicate_succ],
        show pos = (A.map some).length from by rw [List.length_map, hA]]
      exact constructAt_append ..
    rw [hct]
    simp only []
    have hk2 := relocLoopN_ok nm cc mf none B
      ((if selectMove nm cc = true then A.map mf else A).map some) ([] : Buf α)
      (A.map some ++ [some a])
      (List.replicate
        ((if (A ++ B).length = 0 then 1 else 2 * (A ++ B).length) - ((A ++ B).length + 1))
        none)
      (by intro j hj1 hj2; simp)
    simp only [List.append_nil] at hk2
    rw [show ((if selectMove nm cc = true then A.map mf else A).map some).length = pos from by
        cases selectMove nm cc <;> simp [hA],
      show ((A.map some ++ [some a]) : Buf α).length = pos + 1 from by
        rw [List.length_append, List.length_map, hA]
        rfl] at hk2
    rw [show (A ++ B).length - pos = B.length from by omega]
    rw [show (A.map some : Buf α) ++ some a :: List.replicate
          ((if (A ++ B).length = 0 then 1 else 2 * (A ++ B).length) - pos - 1) none
        = (A.map some ++ [some a]) ++ List.replicate B.length none
          ++ List.replicate
            ((if (A ++ B).length = 0 then 1 else 2 * (A ++ B).length) - ((A ++ B).length + 1))
            none from by
      rw [show (if (A ++ B).length = 0 then 1 else 2 * (A ++ B).length) - pos - 1
          = B.length
            + ((if (A ++ B).length = 0 then 1 else 2 * (A ++ B).length)
              - ((A ++ B).length + 1)) from by
          omega,
        List.replicate_add]
      simp]
    rw [hk2]
    simp only []
    have hd0 := destroyRange_suffix
      ((if selectMove nm cc = true then A.map mf else A)
        ++ (if selectMove nm cc = true then B.map mf else B)) ([] : Buf α) ([] : Buf α)
    simp only [List.nil_append, List.append_nil, List.length_nil, List.map_append] at hd0
    rw [show ((if selectMove nm cc = true then A.map mf else A)
          ++ (if selectMove nm cc = true then B.map mf else B)).length
        = (A ++ B).length from by cases selectMove nm cc <;> simp] at hd0
    rw [hd0]
    simp only []
    have hfin : ((A.map some ++ [some a]) : Buf α) ++ B.map some
          ++ List.replicate
            ((if (A ++ B).length = 0 then 1 else 2 * (A ++ B).length) - ((A ++ B).length + 1))
            none
        = mkBuf ((A ++ B).take pos ++ a :: (A ++ B).drop pos)
            (spareAfterGrow (A ++ B).length 0) := by
      rw [← hA, take_len_append, drop_len_append]
      simp [mkBuf, spareAfterGrow]
    rw [hfin]

theorem Emplace_interior_exn (xs : List α) (k0 pos : Nat) (arg : Arg α) (nm cc : Bool)
    (mf : α → α) (hpos : pos < xs.length) :
    Emplace ⟨mkBuf xs (k0 + 1), xs.length⟩ pos arg nm cc mf (some 1)
      = .exn ⟨mkBuf xs (k0 + 1), xs.length⟩ [] := by
  have hlt : (⟨mkBuf xs (k0 + 1), xs.length⟩ : Vector α).size_
      < (⟨mkBuf xs (k0 + 1), xs.length⟩ : Vector α).Capacity := by
    show xs.length < (mkBuf xs (k0 + 1)).length
    rw [mkBuf_length]
    omega
  rcases List.eq_nil_or_concat' xs with rfl | ⟨ys, w, rfl⟩
  · simp at hpos
  · have hposys : pos ≤ ys.length := by
      simp at hpos
      omega
    obtain ⟨A, B, hys, hA⟩ : ∃ A B, ys = A ++ B ∧ A.length = pos :=
      ⟨ys.take pos, ys.drop pos, (List.take_append_drop ..).symm, by
        rw [List.length_take]
        omega⟩
    subst hys
    have hne : ¬(pos = (⟨mkBuf ((A ++ B) ++ [w]) (k0 + 1),
        ((A ++ B) ++ [w]).length⟩ : Vector α).size_) := by
      show ¬(pos = ((A ++ B) ++ [w]).length)
      intro hcon
      simp at hcon
      omega
    unfold Emplace
    rw [if_pos hlt, if_neg hne, if_neg (by simp)]
    simp only []
    have hrd : readSlot (mkBuf ((A ++ B) ++ [w]) (k0 + 1))
        (((A ++ B) ++ [w]).length - 1) = some w := by
      rw [show mkBuf ((A ++ B) ++ [w]) (k0 + 1)
          = (A ++ B).map some ++ some w :: List.replicate (k0 + 1) none from by
          simp [mkBuf],
        show ((A ++ B) ++ [w]).length - 1 = ((A ++ B).map some).length from by simp]
      exact readSlot_append ..
    rw [hrd]
    simp only []
    have hct : constructAt (mkBuf ((A ++ B) ++ [w]) (k0 + 1)) ((A ++ B) ++ [w]).length w
        = some ((A ++ B).map some ++ some w :: (some w :: List.replicate k0 none)) := by
      rw [show mkBuf ((A ++ B) ++ [w]) (k0 + 1)
          = ((A ++ B).map some ++ [some w]) ++ none :: List.replicate k0 none from by
          simp [mkBuf, List.replicate_succ],
        show ((A ++ B) ++ [w]).length = ((A ++ B).map some ++ [some w]).length from by simp]
      rw [constructAt_append]
      congr 1
      simp
    rw [hct]
    simp only []
    have hst : ((A ++ B).map some ++ some w :: (some w :: List.replicate k0 none)).set
        (((A ++ B) ++ [w]).length - 1) (some (mf w))
        = (A ++ B).map some ++ some (mf w) :: (some w :: List.replicate k0 none) := by
      rw [show ((A ++ B) ++ [w]).length - 1 = ((A ++ B).map some).length from by simp]
      exact set_append_len ..
    rw [hst]
    have hmb0 := moveBackwardN_agg mf B (A.map some) (mf w)
      (some w :: List.replicate k0 none)
    rw [show ((A ++ B) ++ [w]).length - 1 - pos = B.length from by simp <;> omega,
      show ((A ++ B) ++ [w]).length - 1 = (A.map some).length + B.length from by
        simp <;> omega,
      show ((A ++ B) ++ [w]).length = (A.map some).length + B.length + 1 from by
        simp <;> omega,
      show ((A ++ B).map some : Buf α) ++ some (mf w) :: (some w :: List.replicate k0 none)
        = A.map some ++ B.map some ++ some (mf w) :: (some w :: List.replicate k0 none)
        from by simp,
      hmb0]
    simp only []
    rw [if_pos trivial]
    rcases B with _ | ⟨m, B1⟩
    · simp only [List.length_nil, Nat.add_zero]
      rw [show (List.map some A : Buf α).length + 1 - pos = ([w] : List α).length from by
          simp <;> omega,
        show pos = (List.map some A : Buf α).length from by rw [List.length_map, hA],
        show ((List.map some A ++ [some (mf w)] : Buf α)) ++ some w :: List.replicate k0 none
          = List.map some A ++ some (mf w) :: ([w] : List α).map some
              ++ List.replicate k0 none from by simp]
      have hfw0 := moveForwardN_agg mf [w] (A.map some) (mf w) (List.replicate k0 none)
      rw [show ([w] : List α).getLast? = some w from rfl] at hfw0
      simp only [] at hfw0
      rw [hfw0]
      simp only []
      have hda : destroyAt ((List.map some A
            ++ (([w] : List α).map some ++ [some (mf w)]) : Buf α)
            ++ List.replicate k0 none)
          ((List.map some A : Buf α).length + 1)
          = some ((List.map some A ++ ([w] : List α).map some)
              ++ none :: List.replicate k0 none) := by
        rw [show ((List.map some A ++ (([w] : List α).map some ++ [some (mf w)]) : Buf α)
              ++ List.replicate k0 none)
            = (List.map some A ++ ([w] : List α).map some)
              ++ some (mf w) :: List.replicate k0 none from by simp,
          show (List.map some A : Buf α).length + 1
            = ((List.map some A ++ ([w] : List α).map some : Buf α)).length from by simp]
        exact destroyAt_append ..
      rw [hda]
      simp only []
      have hfin : ((List.map some A ++ ([w] : List α).map some : Buf α))
            ++ none :: List.replicate k0 none
          = mkBuf ((A ++ []) ++ [w]) (k0 + 1) := by
        simp [mkBuf, List.replicate_succ]
      rw [hfin]
    · simp only []
      rw [show (List.map some A : Buf α).length + (m :: B1).length + 1 - pos
          = ((m :: B1) ++ [w]).length from by simp <;> omega,
        show pos = (List.map some A : Buf α).length from by rw [List.length_map, hA],
        show ((List.map some A ++ some (mf m) :: (m :: B1).map some : Buf α))
            ++ some w :: List.replicate k0 none
          = List.map some A ++ some (mf m) :: ((m :: B1) ++ [w]).map some
              ++ List.replicate k0 none from by simp]
      have hfw0 := moveForwardN_agg mf ((m :: B1) ++ [w]) (A.map some) (mf m)
        (List.replicate k0 none)
      rw [List.getLast?_concat] at hfw0
      simp only [] at hfw0
      rw [hfw0]
      simp only []
      have hda : destroyAt ((List.map some A
            ++ (((m :: B1) ++ [w]).map some ++ [some (mf w)]) : Buf α)
            ++ List.replicate k0 none)
          ((List.map some A : Buf α).length + (m :: B1).length + 1)
          = some ((List.map some A ++ ((m :: B1) ++ [w]).map some)
              ++ none :: List.replicate k0 none) := by
        rw [show ((List.map some A ++ (((m :: B1) ++ [w]).map some ++ [some (mf w)]) : Buf α)
              ++ List.replicate k0 none)
            = (List.map some A ++ ((m :: B1) ++ [w]).map some)
              ++ some (mf w) :: List.replicate k0 none from by simp,
          show (List.map some A : Buf α).length + (m :: B1).length + 1
            = ((List.map some A ++ ((m :: B1) ++ [w]).map some : Buf α)).length from by
            simp <;> omega]
        exact destroyAt_append ..
      rw [hda]
      simp only []
      have hfin : ((List.map some A ++ ((m :: B1) ++ [w]).map some : Buf α))
            ++ none :: List.replicate k0 none
          = mkBuf ((A ++ m :: B1) ++ [w]) (k0 + 1) := by
        simp [mkBuf, List.replicate_succ]
      rw [hfin]

theorem get?_append_len2 (pre : List α) (x : α) (post : List α) :
    (pre ++ x :: post).get? pre.length = some x := by
  induction pre with
  | nil => rfl
  | cons h t ih => simpa using ih

theorem Insert_ref_reduces (xs : List α) (k pos i : Nat) (hi : i < xs.length)
    (nm cc : Bool) (mf : α → α) (failAt : Option Nat) :
    Insert ⟨mkBuf xs k, xs.length⟩ pos (Arg.ref i) nm cc mf failAt
      = Emplace ⟨mkBuf xs k, xs.length⟩ pos (Arg.val (xs.get ⟨i, hi⟩)) nm cc mf failAt := by
  unfold Insert
  simp only []
  rw [if_pos (show i < (⟨mkBuf xs k, xs.length⟩ : Vector α).size_ from hi),
    readSlot_mkBuf xs k i hi, List.get?_eq_get hi]

/-! ### Claim theorems -/

/-- C1: the claim says that when EmplaceBack grows a full vector and any
element construction throws, every object constructed in the new buffer,
including the new element itself, is destroyed and the vector is unchanged.
The code violates this: on a vector of one element at full capacity, with a
copy-relocating element type whose relocation copy throws, the catch loop
destroys new-buffer slot 0, which was never constructed (the new element was
built at slot size = 1), and never destroys the new element, which leaks.
The model reports undefined behavior instead of the claimed clean rollback. -/
theorem c1_emplaceback_growth_rollback_code_bug :
    EmplaceBack (⟨mkBuf [5] 0, 1⟩ : Vector Nat) 7 false true id (some 1) = Res.ub
      ∧ EmplaceBack (⟨mkBuf [5] 0, 1⟩ : Vector Nat) 7 false true id (some 1)
        ≠ Res.exn ⟨mkBuf [5] 0, 1⟩ [] := by
  constructor
  · decide
  · decide

/-- C2: the claim says that in the storage-reuse branch of copy assignment,
an exception while constructing the extra trailing elements destroys exactly
the extras already constructed, with the size unchanged.  The code destroys
slots i to rhs.size-1 instead of the constructed slots size to i-1: on a
target of one element with capacity 3 assigned from a three-element source
whose third element copy throws, the first destroyed slot (index 2) was
never constructed, and the constructed extra at slot 1 is never destroyed.
The model reports undefined behavior instead of the claimed rollback. -/
theorem c2_copy_assign_reuse_rollback_code_bug :
    CopyAssign false (⟨mkBuf [10] 2, 1⟩ : Vector Nat) ⟨mkBuf [1, 2, 3] 0, 3⟩ (some 2)
        = Res.ub
      ∧ CopyAssign false (⟨mkBuf [10] 2, 1⟩ : Vector Nat) ⟨mkBuf [1, 2, 3] 0, 3⟩ (some 2)
        ≠ Res.exn ⟨mkBuf [1] 2, 1⟩ [] := by
  constructor
  · decide
  · decide

/-- C3: the claim says Resize destroys exactly the already-constructed new
elements when growing fails, and that shrinking never fails.  Shrinking does
behave as claimed (second conjunct), but on construction failure the catch
block calls destroy_n over the whole count of new slots even though
uninitialized_value_construct_n has already destroyed its partial work, so
every destructor in the catch runs on raw storage.  The model reports
undefined behavior instead of the claimed rollback. -/
theorem c3_resize_grow_rollback_code_bug :
    Resize (⟨mkBuf [5] 1, 1⟩ : Vector Nat) 2 0 true true id none (some 0) = Res.ub
      ∧ Resize (⟨mkBuf [5] 1, 1⟩ : Vector Nat) 2 0 true true id none (some 0)
        ≠ Res.exn ⟨mkBuf [5] 1, 1⟩ []
      ∧ Resize (⟨mkBuf [5, 6] 0, 2⟩ : Vector Nat) 1 0 true true id none none
        = Res.ok ⟨mkBuf [5] 1, 1⟩ := by
  refine ⟨by decide, by decide, by decide⟩

/-- C4: with spare capacity and an interior position, if the construction of
the replacement value at the insertion slot throws after the tail has been
shifted, Emplace undoes the shift, destroys the duplicated tail slot,
restores the size, and the vector is exactly in its pre-call state when the
exception propagates. -/
theorem c4_emplace_interior_replacement_rollback (xs : List α) (k0 pos : Nat)
    (arg : Arg α) (nm cc : Bool) (mf : α → α) (hpos : pos < xs.length) :
    Emplace ⟨mkBuf xs (k0 + 1), xs.length⟩ pos arg nm cc mf (some 1)
      = .exn ⟨mkBuf xs (k0 + 1), xs.length⟩ [] :=
  Emplace_interior_exn xs k0 pos arg nm cc mf hpos

/-- Witness for C4 at a concrete input. -/
theorem c4_emplace_interior_replacement_rollback_witness :
    Emplace (⟨mkBuf [1, 2] 1, 2⟩ : Vector Nat) 0 (Arg.val 9) true true id (some 1)
      = Res.exn ⟨mkBuf [1, 2] 1, 2⟩ [] :=
  c4_emplace_interior_replacement_rollback [1, 2] 0 0 (Arg.val 9) true true id (by decide)

/-- C5: inserting a reference to the element at slot i of the vector itself
gives the same outcome as inserting an independent copy of that element
value: Insert stages the value into a temporary before Emplace shifts
anything, so the result is the sequence with that value inserted at pos. -/
theorem c5_insert_self_reference (xs : List α) (k pos i : Nat) (hi : i < xs.length)
    (nm cc : Bool) (mf : α → α) (hpos : pos ≤ xs.length) :
    Insert ⟨mkBuf xs k, xs.length⟩ pos (Arg.ref i) nm cc mf none
      = Insert ⟨mkBuf xs k, xs.length⟩ pos (Arg.val (xs.get ⟨i, hi⟩)) nm cc mf none
    ∧ Insert ⟨mkBuf xs k, xs.length⟩ pos (Arg.ref i) nm cc mf none
      = .ok ⟨mkBuf (xs.take pos ++ xs.get ⟨i, hi⟩ :: xs.drop pos)
          (spareAfterGrow xs.length k), xs.length + 1⟩ := by
  constructor
  · exact (Insert_ref_reduces xs k pos i hi nm cc mf none).trans rfl
  · exact (Insert_ref_reduces xs k pos i hi nm cc mf none).trans
      (Emplace_val_ok xs k pos (xs.get ⟨i, hi⟩) nm cc mf hpos)

/-- Witness for C5 at a concrete input. -/
theorem c5_insert_self_reference_witness :
    Insert (⟨mkBuf [1, 2, 3] 1, 3⟩ : Vector Nat) 0 (Arg.ref 1) true true id none
        = Insert (⟨mkBuf [1, 2, 3] 1, 3⟩ : Vector Nat) 0
            (Arg.val (List.get [1, 2, 3] ⟨1, by decide⟩)) true true id none
      ∧ Insert (⟨mkBuf [1, 2, 3] 1, 3⟩ : Vector Nat) 0 (Arg.ref 1) true true id none
        = Res.ok ⟨mkBuf [2, 1, 2, 3] 0, 4⟩ := by
  have h := c5_insert_self_reference [1, 2, 3] 1 0 1 (by decide) true true id (by decide)
  exact ⟨h.1, h.2.trans (by decide)⟩

/-- C6 counterexample: the claim asserts that a failure mid-transfer leaves
every element of the original buffer untouched.  For a move-only element
type whose move construction may throw (nm false, cc false) the relocation
is by move; if the second relocation throws, the first element has already
been moved out and keeps its moved-from value, so the original buffer is not
untouched: starting from elements 5, 7 it ends holding 105, 7 for the
moved-from map that adds 100. -/
theorem c6_reserve_moveonly_counterexample :
    Reserve (⟨mkBuf [5, 7] 0, 2⟩ : Vector Nat) 3 false false (fun a => a + 100) (some 1)
        = Res.exn ⟨mkBuf [105, 7] 0, 2⟩ []
      ∧ (mkBuf [105, 7] 0 : Buf Nat) ≠ mkBuf [5, 7] 0 := by
  constructor
  · decide
  · decide

/-- C6 amended: Reserve with newCap above the capacity allocates exactly
newCap slots, relocates by move exactly when moves cannot throw or the type
is not copy constructible, and on success keeps the elements and size with
capacity exactly newCap.  If a relocation throws (possible only when move
construction is not nothrow), the new buffer is destroyed and released with
nothing leaked, the size and capacity are unchanged, and the elements are
exactly untouched whenever the relocation was by copy (the type is copy
constructible); in the move-only case the elements already relocated are
left holding their moved-from values. -/
theorem c6_reserve_strong_guarantee_amended (xs : List α) (k newCap : Nat)
    (nm cc : Bool) (mf : α → α) (failAt : Option Nat)
    (hcap : xs.length + k < newCap) :
    ((∀ j, j < xs.length → ¬(nm = false ∧ failAt = some j)) →
      Reserve ⟨mkBuf xs k, xs.length⟩ newCap nm cc mf failAt
        = .ok ⟨mkBuf xs (newCap - xs.length), xs.length⟩)
    ∧ (∀ z1 z2, xs = z1 ++ z2 → z2 ≠ [] → nm = false → failAt = some z1.length →
      Reserve ⟨mkBuf xs k, xs.length⟩ newCap nm cc mf failAt
        = .exn ⟨mkBuf ((if selectMove nm cc then z1.map mf else z1) ++ z2) k,
            xs.length⟩ []
      ∧ (cc = true → (if selectMove nm cc then z1.map mf else z1) ++ z2 = xs)) := by
  constructor
  · intro hmiss
    exact Reserve_ok xs k newCap nm cc mf failAt hcap hmiss
  · intro z1 z2 hxs hz hnm hfail
    subst hxs
    subst hnm
    subst hfail
    refine ⟨Reserve_thrown z1 z2 hz k newCap cc mf hcap, ?_⟩
    intro hcc
    subst hcc
    simp [selectMove]

/-- Witness for C6 amended at concrete inputs: a successful reserve and a
failing move-only reserve. -/
theorem c6_reserve_strong_guarantee_amended_witness :
    Reserve (⟨mkBuf [5, 7] 0, 2⟩ : Vector Nat) 5 true true id none
        = Res.ok ⟨mkBuf [5, 7] 3, 2⟩
      ∧ Reserve (⟨mkBuf [5, 7] 0, 2⟩ : Vector Nat) 3 false false (fun a => a + 100)
          (some 1)
        = Res.exn ⟨mkBuf [105, 7] 0, 2⟩ [] := by
  constructor
  · have h := (c6_reserve_strong_guarantee_amended [5, 7] 0 5 true true id none
      (by decide)).1 (by intro j hj; simp)
    exact h.trans (by decide)
  · have h := ((c6_reserve_strong_guarantee_amended [5, 7] 0 3 false false
      (fun a => a + 100) (some 1) (by decide)).2 [5] [7] rfl (by decide) rfl rfl).1
    exact h.trans (by decide)

/-- C7: a successful Insert at any valid position, in both the spare-capacity
and the growth path, yields the sequence with the value inserted at pos and
the size grown by one; reading back at pos yields the value, the elements
before pos are unchanged and the elements from pos on are shifted one
position later. -/
theorem c7_insert_order_readback (xs : List α) (k pos : Nat) (a : α)
    (nm cc : Bool) (mf : α → α) (hpos : pos ≤ xs.length) :
    Insert ⟨mkBuf xs k, xs.length⟩ pos (Arg.val a) nm cc mf none
        = .ok ⟨mkBuf (xs.take pos ++ a :: xs.drop pos) (spareAfterGrow xs.length k),
            xs.length + 1⟩
      ∧ (xs.take pos ++ a :: xs.drop pos).get? pos = some a
      ∧ (xs.take pos ++ a :: xs.drop pos).length = xs.length + 1
      ∧ (xs.take pos ++ a :: xs.drop pos).take pos = xs.take pos
      ∧ (xs.take pos ++ a :: xs.drop pos).drop (pos + 1) = xs.drop pos := by
  have hlen1 : (xs.take pos).length = pos := by
    rw [List.length_take]
    omega
  refine ⟨(show Insert ⟨mkBuf xs k, xs.length⟩ pos (Arg.val a) nm cc mf none
      = Emplace ⟨mkBuf xs k, xs.length⟩ pos (Arg.val a) nm cc mf none from rfl).trans
      (Emplace_val_ok xs k pos a nm cc mf hpos), ?_, ?_, ?_, ?_⟩
  · have h := get?_append_len2 (xs.take pos) a (xs.drop pos)
    rw [hlen1] at h
    exact h
  · simp
    omega
  · have h := take_len_append (xs.take pos) (a :: xs.drop pos)
    rw [hlen1] at h
    exact h
  · have h := drop_len_append (xs.take pos ++ [a]) (xs.drop pos)
    rw [show ((xs.take pos ++ [a]) : List α).length = pos + 1 from by simp [hlen1],
      show ((xs.take pos ++ [a]) : List α) ++ xs.drop pos = xs.take pos ++ a :: xs.drop pos
        from by simp] at h
    exact h

/-- Witness for C7 at a concrete input exercising the growth path. -/
theorem c7_insert_order_readback_witness :
    Insert (⟨mkBuf [1, 2, 3] 0, 3⟩ : Vector Nat) 1 (Arg.val 9) true true id none
        = Res.ok ⟨mkBuf [1, 9, 2, 3] 2, 4⟩
      ∧ ([1, 9, 2, 3] : List Nat).get? 1 = some 9 := by
  have h := c7_insert_order_readback [1, 2, 3] 0 1 9 true true id (by decide)
  exact ⟨h.1.trans (by decide), by decide⟩

/-- C8: pushing n elements one by one onto a default-constructed vector
leaves all n values in order with size n, and the capacity follows the
doubling sequence: it is 0 for n = 0 and otherwise the least power of two
that is at least n. -/
theorem c8_pushback_doubling_growth (nm cc : Bool) (mf : α → α) :
    (∀ ys : List α, pushMany nm cc mf ⟨mkBuf [] 0, 0⟩ ys
        = .ok ⟨mkBuf ys (capN 0 0 ys.length - ys.length), ys.length⟩)
      ∧ capN 0 0 0 = 0
      ∧ ∀ n, 1 ≤ n → ∃ j, capN 0 0 n = 2 ^ j ∧ n ≤ 2 ^ j
          ∧ ∀ i, n ≤ 2 ^ i → 2 ^ j ≤ 2 ^ i := by
  refine ⟨fun ys => ?_, rfl, fun n hn => ?_⟩
  · have h := pushMany_mkBuf nm cc mf ys [] 0
    simpa using h
  · have h := capN_pow2 n 0 0 (Or.inl ⟨rfl, rfl⟩)
    rcases h with ⟨h1, -⟩ | ⟨-, h2, h3, j, hj⟩
    · omega
    · refine ⟨j, hj, by omega, fun i hi => ?_⟩
      have h4 := pow2_least n (capN 0 0 n) j hj (by omega) (by omega) i hi
      omega

/-- Witness for C8 at a concrete input. -/
theorem c8_pushback_doubling_growth_witness :
    pushMany true true (id : Nat → Nat) ⟨mkBuf [] 0, 0⟩ [10, 20, 30]
        = Res.ok ⟨mkBuf [10, 20, 30] (capN 0 0 3 - 3), 3⟩
      ∧ (∃ j, capN 0 0 3 = 2 ^ j ∧ 3 ≤ 2 ^ j ∧ ∀ i, 3 ≤ 2 ^ i → 2 ^ j ≤ 2 ^ i) := by
  constructor
  · exact (c8_pushback_doubling_growth true true (id : Nat → Nat)).1 [10, 20, 30]
  · exact (c8_pushback_doubling_growth true true (id : Nat → Nat)).2.2 3 (by norm_num)

/-- C9: move assignment between distinct vectors swaps the two buffers and
sizes and then zeroes the source size: the target ends with exactly the
source's former buffer, size and capacity, the source ends with size 0 and
the target's former capacity, and the target's former elements remain in
the source's buffer, never destroyed and not observable through the source
whose live sequence is empty. -/
theorem c9_move_assign_swap (a b : Vector α) :
    MoveAssign false a b = (⟨b.data_, b.size_⟩, ⟨a.data_, 0⟩)
      ∧ (MoveAssign false a b).1.Capacity = b.Capacity
      ∧ (MoveAssign false a b).2.Capacity = a.Capacity
      ∧ (MoveAssign false a b).2.size_ = 0
      ∧ (MoveAssign false a b).2.data_ = a.data_
      ∧ (MoveAssign false a b).2.live = [] := by
  exact ⟨rfl, rfl, rfl, rfl, rfl, rfl⟩

/-- C10: self assignment is a no-op for both assignment operators, because
each first compares the addresses and returns immediately when source and
target are the same object. -/
theorem c10_self_assignment_noop (v : Vector α) (failAt : Option Nat) :
    CopyAssign true v v failAt = .ok v ∧ MoveAssign true v v = (v, v) := by
  exact ⟨rfl, rfl⟩

end AV
